import Mathlib

/-!
Verification of the ld-relay core against its specification.

This file gives a shallow embedding, in Lean, of the two source files of the
repository that the claims concern:

* the `events` package (`internal/events/event-relay.go`): the event endpoint
  dispatcher (`eventEndpointDispatcher.dispatchEvents`), the schema-version
  routing, and the verbatim relay (`eventVerbatimRelay.enqueue`) with its
  SendEvents and SamplingInterval gates;

* the `relay` package (`RelayCore`): the three credential indexes
  (`allEnvironments`, `envsByMobileKey`, `envsByEnvID`), `GetEnvironment`,
  `AddEnvironment`, `RemoveEnvironment`, `Close`, and `WaitForAllClients`.

Go maps keyed by strings are embedded as association lists with
insert-replace semantics; goroutine/timer behaviour is embedded by making
the data that crosses a channel (init reports, PRNG draws, parse results)
explicit parameters of the transition functions.  Every definition is
executable so that theorems can be checked on concrete inputs.
-/

/- ------------------------------------------------------------------ -/
/- Part 1: the events package                                          -/
/- ------------------------------------------------------------------ -/

/-- Config mirrors the `Config` struct of the events package (event-relay.go
lines 23-30): EventsUri, SendEvents, FlushIntervalSecs, SamplingInterval
(an int32 in Go, embedded as Int), Capacity, InlineUsers. -/
structure Config where
  EventsUri : String
  SendEvents : Bool
  FlushIntervalSecs : Int
  SamplingInterval : Int
  Capacity : Int
  InlineUsers : Bool
deriving DecidableEq, Repr

/-- Result of reading the request body in `dispatchEvents`: either the read
failed (`ioutil.ReadAll` returned an error) or it produced the bytes of the
body (embedded as a String; an empty body is `success ""`). -/
inductive BodyRead
  | failure
  | success (body : String)
deriving DecidableEq, Repr

/-- The synchronous HTTP answer written by `dispatchEvents`: a status code
and the bytes written to the response body. -/
structure HttpResponse where
  status : Nat
  body : String
deriving DecidableEq, Repr

/-- Modelled from the spec: `util.ErrorJsonMsg` (package `internal/util`,
not among the source files) wraps a message in the JSON error envelope
`{"message": "..."}` described in spec sections 4.D and 6. -/
def errorJsonMsg (msg : String) : String :=
  "\x7b\"message\": \"" ++ msg ++ "\"\x7d"

/-- The unsigned-int64 cutoff 2^63 used by `strconv.ParseInt` for bit size
64 (the int size on the amd64/darwin build targets). -/
def int64Cutoff : Nat := 9223372036854775808

/-- Embedding of Go `strconv.Atoi` (= `strconv.ParseInt(s, 10, 0)` on a
64-bit platform).  Returns the pair (value, err == nil).  An empty string,
a bare sign, or any non-digit character is a syntax error and yields value
0; a value outside the int64 range is a range error and yields the clamped
extreme value (MaxInt64, or MinInt64 for a negative input), exactly as
ParseInt does. -/
def strconvAtoi (s : String) : Int × Bool :=
  let cs := s.data
  let negAndDigits : Bool × List Char :=
    match cs with
    | [] => (false, [])
    | c :: rest =>
        if c = '-' then (true, rest)
        else if c = '+' then (false, rest)
        else (false, cs)
  let neg := negAndDigits.1
  let ds := negAndDigits.2
  if ds.isEmpty || ds.any (fun c => !c.isDigit) then (0, false)
  else
    let n : Nat := ds.foldl (fun acc c => 10 * acc + (c.toNat - 48)) 0
    if neg then
      if int64Cutoff < n then (-(Int.ofNat int64Cutoff), false)
      else (-(Int.ofNat n), true)
    else
      if int64Cutoff ≤ n then (Int.ofNat (int64Cutoff - 1), false)
      else (Int.ofNat n, true)

/-- The action the asynchronous worker of `dispatchEvents` takes after the
202 was written: stop on a JSON parse failure, or hand the parsed records
to the verbatim relay (schema version ≥ 3) or to the summarizing relay
together with the payload version (schema version < 3). -/
inductive AsyncAction
  | parseFailed
  | verbatim (evts : List String)
  | summarize (evts : List String) (payloadVersion : Int)
deriving DecidableEq, Repr

/-- `SummaryEventsSchemaVersion` from event-relay.go line 63. -/
def SummaryEventsSchemaVersion : Int := 3

/-- Embedding of the asynchronous part of
`eventEndpointDispatcher.dispatchEvents` (event-relay.go lines 126-154).
`parseResult` is the result of `json.Unmarshal` of the body into a list of
raw records (`none` = parse error); `schemaHeader` is the value of the
`X-LaunchDarkly-Event-Schema` header (`""` when absent).  The code computes
`payloadVersion, _ := strconv.Atoi(header)` (error discarded), replaces 0
by 1, and routes on `payloadVersion >= SummaryEventsSchemaVersion`. -/
def dispatchEventsAsync (parseResult : Option (List String)) (schemaHeader : String) :
    AsyncAction :=
  match parseResult with
  | none => AsyncAction.parseFailed
  | some evts =>
      let v := (strconvAtoi schemaHeader).1
      let payloadVersion := if v = 0 then 1 else v
      if SummaryEventsSchemaVersion ≤ payloadVersion then AsyncAction.verbatim evts
      else AsyncAction.summarize evts payloadVersion

/-- Embedding of `eventEndpointDispatcher.dispatchEvents` (event-relay.go
lines 107-155).  The first component is the synchronous HTTP response; the
second is the action of the spawned goroutine (`none` when no goroutine is
spawned, i.e. on the 400 paths).  `parse` is the JSON-array parser oracle
used by the goroutine; the response is computed before it is consulted. -/
def dispatchEvents (body : BodyRead) (schemaHeader : String)
    (parse : String → Option (List String)) : HttpResponse × Option AsyncAction :=
  match body with
  | BodyRead.failure => (⟨400, errorJsonMsg "unable to read request body"⟩, none)
  | BodyRead.success b =>
      if b.length = 0 then (⟨400, errorJsonMsg "body may not be empty"⟩, none)
      else (⟨202, ""⟩, some (dispatchEventsAsync (parse b) schemaHeader))

/-- Observable state of one `eventVerbatimRelay` together with the
process-wide PRNG: the batches delivered to `publisher.PublishRaw` so far,
and how many draws `rGen` has produced (`rngIdx` indexes the next draw). -/
structure VerbatimRelayState where
  published : List (List String)
  rngIdx : Nat
deriving DecidableEq, Repr

/-- Embedding of `eventVerbatimRelay.enqueue` (event-relay.go lines
226-236).  `draw i` is the value of the i-th call to `rGen.Int31n(N)`; the
process-wide PRNG is embedded as this oracle because its seed is the wall
clock.  The Go code returns at once when `SendEvents` is false; otherwise,
when `SamplingInterval > 0`, it consumes one draw and publishes exactly
when the draw is 0 (the `&&` short-circuit means no draw is consumed when
`SamplingInterval <= 0`, in which case it always publishes). -/
def eventVerbatimRelay.enqueue (config : Config) (draw : Nat → Int)
    (st : VerbatimRelayState) (evts : List String) : VerbatimRelayState :=
  if config.SendEvents = false then st
  else if 0 < config.SamplingInterval then
    if draw st.rngIdx ≠ 0 then { st with rngIdx := st.rngIdx + 1 }
    else { published := st.published ++ [evts], rngIdx := st.rngIdx + 1 }
  else { st with published := st.published ++ [evts] }

/- ------------------------------------------------------------------ -/
/- Part 2: the relay package (RelayCore)                               -/
/- ------------------------------------------------------------------ -/

/-- `config.SDKCredential` (the sum of the three credential kinds on which
`RelayCore.GetEnvironment` dispatches by type assertion). -/
inductive Credential
  | sdkKey (k : String)
  | mobileKey (k : String)
  | environmentID (k : String)
deriving DecidableEq, Repr

/-- The per-environment configuration fields of `config.EnvConfig` that the
RelayCore index logic reads: SDKKey (required), MobileKey and EnvID (the
empty string plays the role of the Go zero value "not set", exactly as the
code tests `envConfig.MobileKey != ""` / `envConfig.EnvID != ""`). -/
structure EnvConfig where
  sdkKey : String
  mobileKey : String
  envID : String
deriving DecidableEq, Repr

/-- One `relayenv.EnvContext` as observable through RelayCore: the
environment name and config it was constructed from, plus a construction
token `id` standing for the identity of the Go pointer (two contexts
constructed by two `AddEnvironment` calls are distinct objects even when
their configs coincide). -/
structure EnvContext where
  id : Nat
  name : String
  conf : EnvConfig
deriving DecidableEq, Repr

/-- Which credentials belong to an EnvContext: its SDK key always, its
mobile key / environment ID only when set (non-empty). -/
def EnvContext.hasCredential (ctx : EnvContext) : Credential → Prop
  | Credential.sdkKey k => ctx.conf.sdkKey = k
  | Credential.mobileKey k => ctx.conf.mobileKey = k ∧ k ≠ ""
  | Credential.environmentID k => ctx.conf.envID = k ∧ k ≠ ""

instance (ctx : EnvContext) (c : Credential) : Decidable (ctx.hasCredential c) :=
  match c with
  | Credential.sdkKey _ => inferInstanceAs (Decidable (_ = _))
  | Credential.mobileKey _ => inferInstanceAs (Decidable (_ ∧ _))
  | Credential.environmentID _ => inferInstanceAs (Decidable (_ ∧ _))

/-- A Go `map[string]EnvContext` embedded as an association list.  The
operations below give it exactly the map semantics the code relies on:
lookup of the unique entry, insert-replace, delete. -/
abbrev EnvMap : Type := List (String × EnvContext)

/-- Go map lookup `m[k]` (nil result embedded as `none`; lookup on a nil
map yields the zero value, i.e. `none`, which the empty list also gives). -/
def mapLookup : EnvMap → String → Option EnvContext
  | [], _ => none
  | p :: rest, k => if p.1 = k then some p.2 else mapLookup rest k

/-- Go `delete(m, k)`. -/
def mapErase : EnvMap → String → EnvMap
  | [], _ => []
  | p :: rest, k => if p.1 = k then mapErase rest k else p :: mapErase rest k

/-- Go map assignment `m[k] = v` (replaces any previous entry). -/
def mapInsert (m : EnvMap) (k : String) (v : EnvContext) : EnvMap :=
  (k, v) :: mapErase m k

/-- The keys of the map. -/
def mapKeys (m : EnvMap) : List String := m.map Prod.fst

/-- The values of the map (`for _, v := range m`). -/
def mapValues (m : EnvMap) : List EnvContext := m.map Prod.snd

/-- The state of one `RelayCore`.  The three index maps, the `closed` flag
and a counter `nextId` supplying the identity of the next constructed
EnvContext.  The remaining fields record the externally visible resource
releases performed so far, so that "closes X" and "releases nothing twice"
are expressible: `closedEnvs` is the sequence of `env.Close()` calls,
`metricsCloseCount` the number of `metricsManager.Close()` calls, and
`streamProviderCloseCount` the number of `StreamProvider.Close()` calls
(RelayCore owns four providers). -/
structure RelayCore where
  allEnvironments : EnvMap
  envsByMobileKey : EnvMap
  envsByEnvID : EnvMap
  closed : Bool
  nextId : Nat
  closedEnvs : List EnvContext
  metricsCloseCount : Nat
  streamProviderCloseCount : Nat
deriving DecidableEq, Repr

/-- The state of a freshly constructed RelayCore (`NewRelayCore` before the
configured environments are added: three empty maps, not closed). -/
def RelayCore.start : RelayCore :=
  ⟨[], [], [], false, 0, [], 0, 0⟩

/-- Embedding of `RelayCore.GetEnvironment` (event-relay.go lines 395-409):
a type switch on the credential, one indexed lookup per kind. -/
def RelayCore.getEnvironment (r : RelayCore) (credential : Credential) :
    Option EnvContext :=
  match credential with
  | Credential.sdkKey c => mapLookup r.allEnvironments c
  | Credential.mobileKey c => mapLookup r.envsByMobileKey c
  | Credential.environmentID c => mapLookup r.envsByEnvID c

/-- Result of `AddEnvironment`: the constructed context, or the
`errAlreadyClosed` error.  The error paths of the external collaborators
`sdks.ConfigureDataStore` and `relayenv.NewEnvContext` (which also return
before touching any index) are not modelled; context construction itself
is embedded as always succeeding. -/
inductive AddResult
  | ok (ctx : EnvContext)
  | errAlreadyClosed
deriving DecidableEq, Repr

/-- Embedding of `RelayCore.AddEnvironment` (event-relay.go lines 425-508).
Under the write lock: if closed, fail with `errAlreadyClosed` and change
nothing.  Otherwise construct the EnvContext and index it: always under its
SDK key, under its mobile key only if that is non-empty, under its
environment ID only if that is non-empty.  There is no duplicate check;
`r.allEnvironments[envConfig.SDKKey] = clientContext` overwrites. -/
def RelayCore.addEnvironment (r : RelayCore) (envName : String)
    (envConfig : EnvConfig) : AddResult × RelayCore :=
  if r.closed then (AddResult.errAlreadyClosed, r)
  else
    let ctx : EnvContext := ⟨r.nextId, envName, envConfig⟩
    (AddResult.ok ctx,
      { r with
          allEnvironments := mapInsert r.allEnvironments envConfig.sdkKey ctx
          envsByMobileKey :=
            if envConfig.mobileKey ≠ "" then
              mapInsert r.envsByMobileKey envConfig.mobileKey ctx
            else r.envsByMobileKey
          envsByEnvID :=
            if envConfig.envID ≠ "" then
              mapInsert r.envsByEnvID envConfig.envID ctx
            else r.envsByEnvID
          nextId := r.nextId + 1 })

/-- Embedding of `RelayCore.RemoveEnvironment` (event-relay.go lines
515-537).  Looks up the SDK key; when absent, returns false and changes
nothing.  When found, deletes the entry for the SDK key, the entry for the
environment's mobile key and the one for its environment ID, then calls
`env.Close()` (recorded in `closedEnvs`) and returns true. -/
def RelayCore.removeEnvironment (r : RelayCore) (sdkKey : String) :
    Bool × RelayCore :=
  match mapLookup r.allEnvironments sdkKey with
  | none => (false, r)
  | some env =>
      (true,
        { r with
            allEnvironments := mapErase r.allEnvironments sdkKey
            envsByMobileKey := mapErase r.envsByMobileKey env.conf.mobileKey
            envsByEnvID := mapErase r.envsByEnvID env.conf.envID
            closedEnvs := r.closedEnvs ++ [env] })

/-- Embedding of `RelayCore.Close` (event-relay.go lines 578-604).  A
second call returns at once.  The first call sets `closed`, nils out the
three indexes under the write lock, then closes the metrics manager, every
EnvContext that was in `allEnvironments`, and the four stream providers. -/
def RelayCore.close (r : RelayCore) : RelayCore :=
  if r.closed then r
  else
    { r with
        closed := true
        allEnvironments := []
        envsByMobileKey := []
        envsByEnvID := []
        metricsCloseCount := r.metricsCloseCount + 1
        closedEnvs := r.closedEnvs ++ mapValues r.allEnvironments
        streamProviderCloseCount := r.streamProviderCloseCount + 4 }

/-- One top-level operation on a RelayCore. -/
inductive Op
  | add (envName : String) (cfg : EnvConfig)
  | remove (sdkKey : String)
  | close
deriving DecidableEq, Repr

/-- Effect of one operation on the state. -/
def RelayCore.step (r : RelayCore) : Op → RelayCore
  | Op.add envName cfg => (r.addEnvironment envName cfg).2
  | Op.remove k => (r.removeEnvironment k).2
  | Op.close => r.close

/-- Run a sequence of operations from a given state. -/
def RelayCore.runFrom (r : RelayCore) : List Op → RelayCore
  | [] => r
  | op :: ops => RelayCore.runFrom (r.step op) ops

/-- Run a sequence of operations from the initial state; the reachable
states of a RelayCore are exactly the `RelayCore.run ops`. -/
def RelayCore.run (ops : List Op) : RelayCore :=
  RelayCore.runFrom RelayCore.start ops

/-- An EnvConfig is fresh for a state when none of its credentials is
already a key of the corresponding index (the mobile key and environment
ID only count when set). -/
def freshFor (r : RelayCore) (cfg : EnvConfig) : Prop :=
  cfg.sdkKey ∉ mapKeys r.allEnvironments
  ∧ (cfg.mobileKey = "" ∨ cfg.mobileKey ∉ mapKeys r.envsByMobileKey)
  ∧ (cfg.envID = "" ∨ cfg.envID ∉ mapKeys r.envsByEnvID)

instance (r : RelayCore) (cfg : EnvConfig) : Decidable (freshFor r cfg) :=
  inferInstanceAs (Decidable (_ ∧ _))

/-- Freshness condition for one operation: only adds are constrained. -/
def opFresh (r : RelayCore) : Op → Prop
  | Op.add _ cfg => freshFor r cfg
  | Op.remove _ => True
  | Op.close => True

instance (r : RelayCore) (op : Op) : Decidable (opFresh r op) :=
  match op with
  | Op.add _ cfg => inferInstanceAs (Decidable (freshFor r cfg))
  | Op.remove _ => Decidable.isTrue trivial
  | Op.close => Decidable.isTrue trivial

/-- A run is fresh when every add along it uses only credentials not
currently indexed. -/
def FreshRunFrom : RelayCore → List Op → Prop
  | _, [] => True
  | r, op :: ops => opFresh r op ∧ FreshRunFrom (r.step op) ops

instance freshRunFromDec : (r : RelayCore) → (ops : List Op) →
    Decidable (FreshRunFrom r ops)
  | _, [] => Decidable.isTrue trivial
  | r, op :: ops =>
      have : Decidable (FreshRunFrom (r.step op) ops) :=
        freshRunFromDec (r.step op) ops
      inferInstanceAs (Decidable (_ ∧ _))

/- ------------------------------------------------------------------ -/
/- Map lemmas                                                          -/
/- ------------------------------------------------------------------ -/

theorem mapLookup_mem {m : EnvMap} {k : String} {v : EnvContext}
    (h : mapLookup m k = some v) : (k, v) ∈ m := by
  induction m with
  | nil => simp [mapLookup] at h
  | cons p rest ih =>
      by_cases hk : p.1 = k
      · rw [mapLookup, if_pos hk] at h
        obtain rfl : p.2 = v := Option.some.inj h
        subst hk
        exact List.mem_cons_self _ _
      · rw [mapLookup, if_neg hk] at h
        exact List.mem_cons_of_mem _ (ih h)

theorem mem_keys_of_lookup_some {m : EnvMap} {k : String} {v : EnvContext}
    (h : mapLookup m k = some v) : k ∈ mapKeys m := by
  have := mapLookup_mem h
  exact List.mem_map.2 ⟨(k, v), this, rfl⟩

theorem lookup_eq_none_of_not_mem_keys {m : EnvMap} {k : String}
    (h : k ∉ mapKeys m) : mapLookup m k = none := by
  cases hl : mapLookup m k with
  | none => rfl
  | some v => exact absurd (mem_keys_of_lookup_some hl) h

theorem mem_mapErase {m : EnvMap} {k : String} {p : String × EnvContext} :
    p ∈ mapErase m k ↔ p ∈ m ∧ p.1 ≠ k := by
  induction m with
  | nil => simp [mapErase]
  | cons q rest ih =>
      by_cases hq : q.1 = k
      · rw [mapErase, if_pos hq]
        rw [ih]
        constructor
        · rintro ⟨hm, hne⟩
          exact ⟨List.mem_cons_of_mem _ hm, hne⟩
        · rintro ⟨hm, hne⟩
          rcases List.mem_cons.1 hm with rfl | hm
          · exact absurd hq hne
          · exact ⟨hm, hne⟩
      · rw [mapErase, if_neg hq]
        constructor
        · intro hm
          rcases List.mem_cons.1 hm with rfl | hm
          · exact ⟨List.mem_cons_self _ _, hq⟩
          · rcases ih.1 hm with ⟨hm', hne⟩
            exact ⟨List.mem_cons_of_mem _ hm', hne⟩
        · rintro ⟨hm, hne⟩
          rcases List.mem_cons.1 hm with rfl | hm
          · exact List.mem_cons_self _ _
          · exact List.mem_cons_of_mem _ (ih.2 ⟨hm, hne⟩)

theorem mapLookup_mapErase_self (m : EnvMap) (k : String) :
    mapLookup (mapErase m k) k = none := by
  apply lookup_eq_none_of_not_mem_keys
  intro hmem
  rcases List.mem_map.1 hmem with ⟨p, hp, hfst⟩
  exact absurd hfst (mem_mapErase.1 hp).2

theorem mapLookup_mapErase_ne (m : EnvMap) {k k' : String} (h : k' ≠ k) :
    mapLookup (mapErase m k) k' = mapLookup m k' := by
  induction m with
  | nil => rfl
  | cons p rest ih =>
      by_cases hp : p.1 = k
      · rw [mapErase, if_pos hp, ih, mapLookup,
          if_neg (fun hh => h (by rw [← hh]; exact hp))]
      · by_cases hp' : p.1 = k'
        · rw [mapErase, if_neg hp, mapLookup, if_pos hp', mapLookup, if_pos hp']
        · rw [mapErase, if_neg hp, mapLookup, if_neg hp', mapLookup, if_neg hp', ih]

theorem mapLookup_mapInsert_self (m : EnvMap) (k : String) (v : EnvContext) :
    mapLookup (mapInsert m k v) k = some v := by
  rw [mapInsert, mapLookup, if_pos rfl]

theorem mapLookup_mapInsert_ne (m : EnvMap) (v : EnvContext) {k k' : String}
    (h : k' ≠ k) : mapLookup (mapInsert m k v) k' = mapLookup m k' := by
  rw [mapInsert, mapLookup, if_neg (fun hh => h hh.symm), mapLookup_mapErase_ne _ h]

theorem mem_values_iff {m : EnvMap} {ctx : EnvContext} :
    ctx ∈ mapValues m ↔ ∃ k, (k, ctx) ∈ m := by
  unfold mapValues
  rw [List.mem_map]
  constructor
  · rintro ⟨p, hp, rfl⟩
    exact ⟨p.1, hp⟩
  · rintro ⟨k, hk⟩
    exact ⟨(k, ctx), hk, rfl⟩

theorem values_mapErase_subset {m : EnvMap} {k : String} {ctx : EnvContext}
    (h : ctx ∈ mapValues (mapErase m k)) : ctx ∈ mapValues m := by
  rcases mem_values_iff.1 h with ⟨k', hk'⟩
  exact mem_values_iff.2 ⟨k', (mem_mapErase.1 hk').1⟩

theorem mapErase_of_not_mem_keys {m : EnvMap} {k : String}
    (h : k ∉ mapKeys m) : mapErase m k = m := by
  induction m with
  | nil => rfl
  | cons p rest ih =>
      have hp : p.1 ≠ k := by
        intro hh
        exact h (List.mem_map.2 ⟨p, List.mem_cons_self _ _, hh⟩)
      rw [mapErase, if_neg hp,
        ih (fun hh => h (List.mem_map.2 (by
          rcases List.mem_map.1 hh with ⟨q, hq, hfst⟩
          exact ⟨q, List.mem_cons_of_mem _ hq, hfst⟩)))]

theorem keys_mapErase_subset {m : EnvMap} {k k' : String}
    (h : k' ∈ mapKeys (mapErase m k)) : k' ∈ mapKeys m := by
  rcases List.mem_map.1 h with ⟨p, hp, hfst⟩
  exact List.mem_map.2 ⟨p, (mem_mapErase.1 hp).1, hfst⟩

theorem not_mem_keys_mapErase_self (m : EnvMap) (k : String) :
    k ∉ mapKeys (mapErase m k) := by
  intro h
  rcases List.mem_map.1 h with ⟨p, hp, hfst⟩
  exact (mem_mapErase.1 hp).2 hfst

theorem keys_nodup_mapErase {m : EnvMap} {k : String}
    (h : (mapKeys m).Nodup) : (mapKeys (mapErase m k)).Nodup := by
  induction m with
  | nil => exact h
  | cons p rest ih =>
      rw [mapKeys, List.map_cons, List.nodup_cons] at h
      by_cases hp : p.1 = k
      · rw [mapErase, if_pos hp]
        exact ih h.2
      · rw [mapErase, if_neg hp, mapKeys, List.map_cons, List.nodup_cons]
        exact ⟨fun hmem => h.1 (keys_mapErase_subset hmem), ih h.2⟩

theorem keys_nodup_mapInsert {m : EnvMap} {k : String} {v : EnvContext}
    (h : (mapKeys m).Nodup) : (mapKeys (mapInsert m k v)).Nodup := by
  rw [mapInsert, mapKeys, List.map_cons, List.nodup_cons]
  exact ⟨not_mem_keys_mapErase_self m k, keys_nodup_mapErase h⟩

/- ------------------------------------------------------------------ -/
/- The index-consistency invariant of RelayCore                        -/
/- ------------------------------------------------------------------ -/

/-- Index consistency: every entry of each index is keyed by the matching
credential of its EnvContext, every mobile/envID entry points at an
indexed environment, and every indexed environment is reachable through
each of its set credentials. -/
structure CoreInv (r : RelayCore) : Prop where
  sdkKeyOf : ∀ p ∈ r.allEnvironments, (Prod.snd p).conf.sdkKey = p.1
  mobKeyOf : ∀ p ∈ r.envsByMobileKey,
    (Prod.snd p).conf.mobileKey = p.1 ∧ p.1 ≠ ""
  envKeyOf : ∀ p ∈ r.envsByEnvID, (Prod.snd p).conf.envID = p.1 ∧ p.1 ≠ ""
  mobLive : ∀ p ∈ r.envsByMobileKey, Prod.snd p ∈ mapValues r.allEnvironments
  envLive : ∀ p ∈ r.envsByEnvID, Prod.snd p ∈ mapValues r.allEnvironments
  sdkFull : ∀ ctx ∈ mapValues r.allEnvironments,
    mapLookup r.allEnvironments ctx.conf.sdkKey = some ctx
  mobFull : ∀ ctx ∈ mapValues r.allEnvironments, ctx.conf.mobileKey ≠ "" →
    mapLookup r.envsByMobileKey ctx.conf.mobileKey = some ctx
  envFull : ∀ ctx ∈ mapValues r.allEnvironments, ctx.conf.envID ≠ "" →
    mapLookup r.envsByEnvID ctx.conf.envID = some ctx

theorem coreInv_start : CoreInv RelayCore.start := by
  constructor <;> intro p hp <;> simp [RelayCore.start, mapValues] at hp

theorem coreInv_addEnvironment {r : RelayCore} (hInv : CoreInv r) (envName : String)
    {cfg : EnvConfig} (hfresh : freshFor r cfg) :
    CoreInv (r.addEnvironment envName cfg).2 := by
  by_cases hc : r.closed
  · simpa [RelayCore.addEnvironment, hc] using hInv
  · obtain ⟨hfsdk, hfmob, hfenv⟩ := hfresh
    set ctx0 : EnvContext := ⟨r.nextId, envName, cfg⟩ with hctx0
    have hall : (r.addEnvironment envName cfg).2.allEnvironments
        = (cfg.sdkKey, ctx0) :: r.allEnvironments := by
      simp [RelayCore.addEnvironment, hc, mapInsert,
        mapErase_of_not_mem_keys hfsdk]
    have hmob : (r.addEnvironment envName cfg).2.envsByMobileKey
        = if cfg.mobileKey ≠ "" then (cfg.mobileKey, ctx0) :: r.envsByMobileKey
          else r.envsByMobileKey := by
      by_cases hm : cfg.mobileKey = ""
      · simp [RelayCore.addEnvironment, hc, hm]
      · have hm' : cfg.mobileKey ∉ mapKeys r.envsByMobileKey := by
          rcases hfmob with h | h
          · exact absurd h hm
          · exact h
        simp [RelayCore.addEnvironment, hc, hm, mapInsert,
          mapErase_of_not_mem_keys hm']
    have henv : (r.addEnvironment envName cfg).2.envsByEnvID
        = if cfg.envID ≠ "" then (cfg.envID, ctx0) :: r.envsByEnvID
          else r.envsByEnvID := by
      by_cases he : cfg.envID = ""
      · simp [RelayCore.addEnvironment, hc, he]
      · have he' : cfg.envID ∉ mapKeys r.envsByEnvID := by
          rcases hfenv with h | h
          · exact absurd h he
          · exact h
        simp [RelayCore.addEnvironment, hc, he, mapInsert,
          mapErase_of_not_mem_keys he']
    have hvals : mapValues (r.addEnvironment envName cfg).2.allEnvironments
        = ctx0 :: mapValues r.allEnvironments := by
      rw [hall]; rfl
    constructor
    · rw [hall]
      intro p hp
      rcases List.mem_cons.1 hp with rfl | hp
      · rfl
      · exact hInv.sdkKeyOf p hp
    · rw [hmob]
      by_cases hm : cfg.mobileKey = ""
      · simp only [hm, ne_eq, not_true_eq_false, if_false]
        exact hInv.mobKeyOf
      · simp only [ne_eq, hm, not_false_eq_true, if_true]
        intro p hp
        rcases List.mem_cons.1 hp with rfl | hp
        · exact ⟨rfl, hm⟩
        · exact hInv.mobKeyOf p hp
    · rw [henv]
      by_cases he : cfg.envID = ""
      · simp only [he, ne_eq, not_true_eq_false, if_false]
        exact hInv.envKeyOf
      · simp only [ne_eq, he, not_false_eq_true, if_true]
        intro p hp
        rcases List.mem_cons.1 hp with rfl | hp
        · exact ⟨rfl, he⟩
        · exact hInv.envKeyOf p hp
    · rw [hmob, hvals]
      by_cases hm : cfg.mobileKey = ""
      · simp only [hm, ne_eq, not_true_eq_false, if_false]
        intro p hp
        exact List.mem_cons_of_mem _ (hInv.mobLive p hp)
      · simp only [ne_eq, hm, not_false_eq_true, if_true]
        intro p hp
        rcases List.mem_cons.1 hp with rfl | hp
        · exact List.mem_cons_self _ _
        · exact List.mem_cons_of_mem _ (hInv.mobLive p hp)
    · rw [henv, hvals]
      by_cases he : cfg.envID = ""
      · simp only [he, ne_eq, not_true_eq_false, if_false]
        intro p hp
        exact List.mem_cons_of_mem _ (hInv.envLive p hp)
      · simp only [ne_eq, he, not_false_eq_true, if_true]
        intro p hp
        rcases List.mem_cons.1 hp with rfl | hp
        · exact List.mem_cons_self _ _
        · exact List.mem_cons_of_mem _ (hInv.envLive p hp)
    · rw [hall]
      intro ctx hctx
      have hctx' : ctx = ctx0 ∨ ctx ∈ mapValues r.allEnvironments := by
        simpa [mapValues] using hctx
      rcases hctx' with rfl | hctx
      · rw [mapLookup, if_pos rfl]
      · have hk : ctx.conf.sdkKey ∈ mapKeys r.allEnvironments :=
          mem_keys_of_lookup_some (hInv.sdkFull ctx hctx)
        have hne : cfg.sdkKey ≠ ctx.conf.sdkKey := fun hh => hfsdk (hh ▸ hk)
        rw [mapLookup, if_neg hne]
        exact hInv.sdkFull ctx hctx
    · rw [hmob, hvals]
      intro ctx hctx hmk
      rcases List.mem_cons.1 hctx with rfl | hctx
      · simp only [ne_eq, hmk, not_false_eq_true, if_true]
        rw [mapLookup, if_pos rfl]
      · have hold := hInv.mobFull ctx hctx hmk
        by_cases hm : cfg.mobileKey = ""
        · simp only [hm, ne_eq, not_true_eq_false, if_false]
          exact hold
        · simp only [ne_eq, hm, not_false_eq_true, if_true]
          have hk : ctx.conf.mobileKey ∈ mapKeys r.envsByMobileKey :=
            mem_keys_of_lookup_some hold
          have hm' : cfg.mobileKey ∉ mapKeys r.envsByMobileKey := by
            rcases hfmob with h | h
            · exact absurd h hm
            · exact h
          have hne : cfg.mobileKey ≠ ctx.conf.mobileKey :=
            fun hh => hm' (hh ▸ hk)
          rw [mapLookup, if_neg hne]
          exact hold
    · rw [henv, hvals]
      intro ctx hctx hek
      rcases List.mem_cons.1 hctx with rfl | hctx
      · simp only [ne_eq, hek, not_false_eq_true, if_true]
        rw [mapLookup, if_pos rfl]
      · have hold := hInv.envFull ctx hctx hek
        by_cases he : cfg.envID = ""
        · simp only [he, ne_eq, not_true_eq_false, if_false]
          exact hold
        · simp only [ne_eq, he, not_false_eq_true, if_true]
          have hk : ctx.conf.envID ∈ mapKeys r.envsByEnvID :=
            mem_keys_of_lookup_some hold
          have he' : cfg.envID ∉ mapKeys r.envsByEnvID := by
            rcases hfenv with h | h
            · exact absurd h he
            · exact h
          have hne : cfg.envID ≠ ctx.conf.envID := fun hh => he' (hh ▸ hk)
          rw [mapLookup, if_neg hne]
          exact hold

theorem coreInv_removeEnvironment {r : RelayCore} (hInv : CoreInv r)
    (k : String) : CoreInv (r.removeEnvironment k).2 := by
  cases hlook : mapLookup r.allEnvironments k with
  | none => simpa [RelayCore.removeEnvironment, hlook] using hInv
  | some ctx =>
      have hmem : (k, ctx) ∈ r.allEnvironments := mapLookup_mem hlook
      have hkey : ctx.conf.sdkKey = k := hInv.sdkKeyOf (k, ctx) hmem
      have hctxval : ctx ∈ mapValues r.allEnvironments :=
        mem_values_iff.2 ⟨k, hmem⟩
      have hall : (r.removeEnvironment k).2.allEnvironments
          = mapErase r.allEnvironments k := by
        simp [RelayCore.removeEnvironment, hlook]
      have hmob : (r.removeEnvironment k).2.envsByMobileKey
          = mapErase r.envsByMobileKey ctx.conf.mobileKey := by
        simp [RelayCore.removeEnvironment, hlook]
      have henv : (r.removeEnvironment k).2.envsByEnvID
          = mapErase r.envsByEnvID ctx.conf.envID := by
        simp [RelayCore.removeEnvironment, hlook]
      have hvalmem : ∀ {c : EnvContext},
          c ∈ mapValues (mapErase r.allEnvironments k) →
          c ∈ mapValues r.allEnvironments ∧ c ≠ ctx := by
        intro c hc
        rcases mem_values_iff.1 hc with ⟨k', hk'⟩
        rcases mem_mapErase.1 hk' with ⟨hk'', hne⟩
        refine ⟨mem_values_iff.2 ⟨k', hk''⟩, ?_⟩
        rintro rfl
        exact hne ((hInv.sdkKeyOf (k', c) hk'').symm.trans hkey)
      have hlivemem : ∀ {c : EnvContext},
          c ∈ mapValues r.allEnvironments → c ≠ ctx →
          c ∈ mapValues (mapErase r.allEnvironments k) := by
        intro c hc hne
        rcases mem_values_iff.1 hc with ⟨k', hk'⟩
        have hk'key : c.conf.sdkKey = k' := hInv.sdkKeyOf (k', c) hk'
        have hk'ne : k' ≠ k := by
          rintro rfl
          have := hInv.sdkFull c hc
          rw [hk'key, hlook] at this
          exact hne (Option.some.inj this).symm
        exact mem_values_iff.2 ⟨k', mem_mapErase.2 ⟨hk', hk'ne⟩⟩
      constructor
      · rw [hall]
        intro p hp
        exact hInv.sdkKeyOf p (mem_mapErase.1 hp).1
      · rw [hmob]
        intro p hp
        exact hInv.mobKeyOf p (mem_mapErase.1 hp).1
      · rw [henv]
        intro p hp
        exact hInv.envKeyOf p (mem_mapErase.1 hp).1
      · rw [hmob, hall]
        intro p hp
        rcases mem_mapErase.1 hp with ⟨hpm, hpne⟩
        have hlive := hInv.mobLive p hpm
        refine hlivemem hlive ?_
        rintro hEq
        apply hpne
        rw [← (hInv.mobKeyOf p hpm).1, hEq]
      · rw [henv, hall]
        intro p hp
        rcases mem_mapErase.1 hp with ⟨hpm, hpne⟩
        have hlive := hInv.envLive p hpm
        refine hlivemem hlive ?_
        rintro hEq
        apply hpne
        rw [← (hInv.envKeyOf p hpm).1, hEq]
      · rw [hall]
        intro c hc
        rcases hvalmem hc with ⟨hcv, hcne⟩
        have hckey : c.conf.sdkKey ≠ k := by
          intro hh
          have := hInv.sdkFull c hcv
          rw [hh, hlook] at this
          exact hcne (Option.some.inj this).symm
        rw [mapLookup_mapErase_ne _ hckey]
        exact hInv.sdkFull c hcv
      · rw [hmob, hall]
        intro c hc hcmk
        rcases hvalmem hc with ⟨hcv, hcne⟩
        have hold := hInv.mobFull c hcv hcmk
        have hcne' : c.conf.mobileKey ≠ ctx.conf.mobileKey := by
          intro hh
          by_cases hmk0 : ctx.conf.mobileKey = ""
          · exact hcmk (hh.trans hmk0)
          · have := hInv.mobFull ctx hctxval hmk0
            rw [← hh, hold] at this
            exact hcne (Option.some.inj this.symm).symm
        rw [mapLookup_mapErase_ne _ hcne']
        exact hold
      · rw [henv, hall]
        intro c hc hcek
        rcases hvalmem hc with ⟨hcv, hcne⟩
        have hold := hInv.envFull c hcv hcek
        have hcne' : c.conf.envID ≠ ctx.conf.envID := by
          intro hh
          by_cases hek0 : ctx.conf.envID = ""
          · exact hcek (hh.trans hek0)
          · have := hInv.envFull ctx hctxval hek0
            rw [← hh, hold] at this
            exact hcne (Option.some.inj this.symm).symm
        rw [mapLookup_mapErase_ne _ hcne']
        exact hold

theorem coreInv_close {r : RelayCore} (hInv : CoreInv r) :
    CoreInv r.close := by
  by_cases hc : r.closed
  · simpa [RelayCore.close, hc] using hInv
  · constructor <;>
      · intro p hp
        simp [RelayCore.close, hc, mapValues] at hp

theorem coreInv_step {r : RelayCore} (hInv : CoreInv r) {op : Op}
    (hfresh : opFresh r op) : CoreInv (r.step op) := by
  cases op with
  | add envName cfg => exact coreInv_addEnvironment hInv envName hfresh
  | remove k => exact coreInv_removeEnvironment hInv k
  | close => exact coreInv_close hInv

theorem coreInv_runFrom {r : RelayCore} (hInv : CoreInv r) {ops : List Op}
    (hfresh : FreshRunFrom r ops) : CoreInv (RelayCore.runFrom r ops) := by
  induction ops generalizing r with
  | nil => exact hInv
  | cons op ops ih =>
      exact ih (coreInv_step hInv hfresh.1) hfresh.2

theorem coreInv_run {ops : List Op} (hfresh : FreshRunFrom RelayCore.start ops) :
    CoreInv (RelayCore.run ops) :=
  coreInv_runFrom coreInv_start hfresh

/- ------------------------------------------------------------------ -/
/- Trace lemmas that need no freshness hypothesis                      -/
/- ------------------------------------------------------------------ -/

/-- Every entry of the SDK-key index is keyed by its context's SDK key;
this holds in every reachable state, with no assumption on the trace. -/
def SdkKeysMatch (r : RelayCore) : Prop :=
  ∀ p ∈ r.allEnvironments, (Prod.snd p).conf.sdkKey = p.1

theorem sdkKeysMatch_step {r : RelayCore} (h : SdkKeysMatch r) (op : Op) :
    SdkKeysMatch (r.step op) := by
  cases op with
  | add envName cfg =>
      by_cases hc : r.closed
      · simpa [RelayCore.step, RelayCore.addEnvironment, hc] using h
      · intro p hp
        simp only [RelayCore.step, RelayCore.addEnvironment, hc,
          if_false, Bool.false_eq_true] at hp
        rcases List.mem_cons.1 hp with rfl | hp
        · rfl
        · exact h p (mem_mapErase.1 hp).1
  | remove k =>
      cases hlook : mapLookup r.allEnvironments k with
      | none => simpa [RelayCore.step, RelayCore.removeEnvironment, hlook] using h
      | some ctx =>
          intro p hp
          simp only [RelayCore.step, RelayCore.removeEnvironment, hlook] at hp
          exact h p (mem_mapErase.1 hp).1
  | close =>
      by_cases hc : r.closed
      · simpa [RelayCore.step, RelayCore.close, hc] using h
      · intro p hp
        simp [RelayCore.step, RelayCore.close, hc] at hp

theorem sdkKeysMatch_runFrom {r : RelayCore} (h : SdkKeysMatch r)
    (ops : List Op) : SdkKeysMatch (RelayCore.runFrom r ops) := by
  induction ops generalizing r with
  | nil => exact h
  | cons op ops ih => exact ih (sdkKeysMatch_step h op)

theorem sdkKeysMatch_run (ops : List Op) : SdkKeysMatch (RelayCore.run ops) :=
  sdkKeysMatch_runFrom (by intro p hp; simp [RelayCore.start] at hp) ops

/-- The SDK-key index never holds two entries for one key, in any
reachable state. -/
theorem sdkKeys_nodup_run (ops : List Op) :
    (mapKeys (RelayCore.run ops).allEnvironments).Nodup := by
  have main : ∀ (ops : List Op) (r : RelayCore),
      (mapKeys r.allEnvironments).Nodup →
      (mapKeys (RelayCore.runFrom r ops).allEnvironments).Nodup := by
    intro ops
    induction ops with
    | nil => intro r h; exact h
    | cons op ops ih =>
        intro r h
        refine ih _ ?_
        cases op with
        | add envName cfg =>
            by_cases hc : r.closed
            · simpa [RelayCore.step, RelayCore.addEnvironment, hc] using h
            · simp only [RelayCore.step, RelayCore.addEnvironment, hc,
                if_false, Bool.false_eq_true]
              exact keys_nodup_mapInsert h
        | remove k =>
            cases hlook : mapLookup r.allEnvironments k with
            | none =>
                simpa [RelayCore.step, RelayCore.removeEnvironment, hlook] using h
            | some ctx =>
                simp only [RelayCore.step, RelayCore.removeEnvironment, hlook]
                exact keys_nodup_mapErase h
        | close =>
            by_cases hc : r.closed
            · simpa [RelayCore.step, RelayCore.close, hc] using h
            · simp [RelayCore.step, RelayCore.close, hc, mapKeys]
  exact main ops RelayCore.start (by simp [RelayCore.start, mapKeys])

/-- Close sets the closed flag, whatever the state was. -/
theorem close_closed (r : RelayCore) : r.close.closed = true := by
  by_cases hc : r.closed
  · simp [RelayCore.close, hc]
  · simp [RelayCore.close, hc]

/-- No operation ever resets the closed flag. -/
theorem closed_step {r : RelayCore} (h : r.closed = true) (op : Op) :
    (r.step op).closed = true := by
  cases op with
  | add envName cfg => simp [RelayCore.step, RelayCore.addEnvironment, h]
  | remove k =>
      cases hlook : mapLookup r.allEnvironments k with
      | none => simpa [RelayCore.step, RelayCore.removeEnvironment, hlook] using h
      | some ctx => simpa [RelayCore.step, RelayCore.removeEnvironment, hlook] using h
  | close => simp [RelayCore.step, RelayCore.close, h]

theorem closed_runFrom {r : RelayCore} (h : r.closed = true) (ops : List Op) :
    (RelayCore.runFrom r ops).closed = true := by
  induction ops generalizing r with
  | nil => exact h
  | cons op ops ih => exact ih (closed_step h op)

theorem runFrom_append (r : RelayCore) (l1 l2 : List Op) :
    RelayCore.runFrom r (l1 ++ l2)
      = RelayCore.runFrom (RelayCore.runFrom r l1) l2 := by
  induction l1 generalizing r with
  | nil => rfl
  | cons op l1 ih => simpa [RelayCore.runFrom] using ih (r.step op)

/- ------------------------------------------------------------------ -/
/- WaitForAllClients                                                   -/
/- ------------------------------------------------------------------ -/

/-- Result of `RelayCore.WaitForAllClients`: nil, `errSomeEnvironmentFailed`,
`errInitializationTimeout`, or blocking forever (timeout 0 and not all
environments reported, in which case the select has no ready case). -/
inductive WaitResult
  | ok
  | someEnvFailed
  | timedOut
  | blockedForever
deriving DecidableEq, Repr

/-- Embedding of `RelayCore.WaitForAllClients` (event-relay.go lines
542-575).  The channel and timer concurrency is embedded by its observable
data: `numEnvironments` is `len(r.allEnvironments)` at the call;
`reports` is the sequence of values the inner goroutine receives from
`clientInitCh`, each entry being whether that environment's
`GetInitError()` was non-nil; `timeoutElapses` states that the timeout was
positive and its timer fired before `numEnvironments` reports had been
received.  The goroutine reads exactly `numEnvironments` reports and ors
their failure flags; the select then yields that outcome, or the timeout
error when the timer fired first. -/
def waitForAllClients (numEnvironments : Nat) (reports : List Bool)
    (timeoutElapses : Bool) : WaitResult :=
  if numEnvironments ≤ reports.length then
    if (reports.take numEnvironments).any (fun b => b) then
      WaitResult.someEnvFailed
    else WaitResult.ok
  else if timeoutElapses then WaitResult.timedOut
  else WaitResult.blockedForever

/- ------------------------------------------------------------------ -/
/- Consequences of the invariant, used by the claim theorems           -/
/- ------------------------------------------------------------------ -/

theorem getEnvironment_of_hasCredential {r : RelayCore} (hInv : CoreInv r)
    {ctx : EnvContext} (hctx : ctx ∈ mapValues r.allEnvironments)
    {c : Credential} (hc : ctx.hasCredential c) :
    r.getEnvironment c = some ctx := by
  cases c with
  | sdkKey k =>
      show mapLookup r.allEnvironments k = some ctx
      have hk : ctx.conf.sdkKey = k := hc
      rw [← hk]
      exact hInv.sdkFull ctx hctx
  | mobileKey k =>
      show mapLookup r.envsByMobileKey k = some ctx
      rcases hc with ⟨hk, hne⟩
      rw [← hk]
      exact hInv.mobFull ctx hctx (by rw [hk]; exact hne)
  | environmentID k =>
      show mapLookup r.envsByEnvID k = some ctx
      rcases hc with ⟨hk, hne⟩
      rw [← hk]
      exact hInv.envFull ctx hctx (by rw [hk]; exact hne)

theorem getEnvironment_none_of_no_owner {r : RelayCore} (hInv : CoreInv r)
    {c : Credential}
    (h : ∀ ctx ∈ mapValues r.allEnvironments, ¬ ctx.hasCredential c) :
    r.getEnvironment c = none := by
  cases c with
  | sdkKey k =>
      show mapLookup r.allEnvironments k = none
      cases hl : mapLookup r.allEnvironments k with
      | none => rfl
      | some ctx =>
          have hmem := mapLookup_mem hl
          have hval : ctx ∈ mapValues r.allEnvironments :=
            mem_values_iff.2 ⟨k, hmem⟩
          exact absurd (hInv.sdkKeyOf (k, ctx) hmem) (h ctx hval)
  | mobileKey k =>
      show mapLookup r.envsByMobileKey k = none
      cases hl : mapLookup r.envsByMobileKey k with
      | none => rfl
      | some ctx =>
          have hmem := mapLookup_mem hl
          have hval : ctx ∈ mapValues r.allEnvironments :=
            hInv.mobLive (k, ctx) hmem
          exact absurd (hInv.mobKeyOf (k, ctx) hmem) (h ctx hval)
  | environmentID k =>
      show mapLookup r.envsByEnvID k = none
      cases hl : mapLookup r.envsByEnvID k with
      | none => rfl
      | some ctx =>
          have hmem := mapLookup_mem hl
          have hval : ctx ∈ mapValues r.allEnvironments :=
            hInv.envLive (k, ctx) hmem
          exact absurd (hInv.envKeyOf (k, ctx) hmem) (h ctx hval)

theorem string_length_ne_zero {b : String} (h : b ≠ "") : b.length ≠ 0 := by
  intro h0
  apply h
  cases b with
  | mk l =>
      cases l with
      | nil => rfl
      | cons c cs => simp [String.length] at h0

/- ------------------------------------------------------------------ -/
/- Claims                                                              -/
/- ------------------------------------------------------------------ -/

/-- C1 (counterexample): the claim fails as stated.  Add environment "a"
with ServerKey "k1" and MobileKey "m", then environment "b" with ServerKey
"k2" and the same MobileKey "m".  Neither environment is removed and the
core is not closed, and GetEnvironment of each ServerKey still returns its
own EnvContext, so both are live; the MobileKey "m" belongs to
environment "a" (it was added with it).  Yet GetEnvironment(MobileKey "m")
returns environment "b"'s context, not the EnvContext constructed for "a":
the second AddEnvironment silently overwrote the mobile-key index entry. -/
theorem c1_counterexample :
    (RelayCore.run [Op.add "a" ⟨"k1", "m", ""⟩, Op.add "b" ⟨"k2", "m", ""⟩]).getEnvironment
        (Credential.sdkKey "k1") = some ⟨0, "a", ⟨"k1", "m", ""⟩⟩
    ∧ (RelayCore.run [Op.add "a" ⟨"k1", "m", ""⟩, Op.add "b" ⟨"k2", "m", ""⟩]).getEnvironment
        (Credential.sdkKey "k2") = some ⟨1, "b", ⟨"k2", "m", ""⟩⟩
    ∧ EnvContext.hasCredential ⟨0, "a", ⟨"k1", "m", ""⟩⟩ (Credential.mobileKey "m")
    ∧ (RelayCore.run [Op.add "a" ⟨"k1", "m", ""⟩, Op.add "b" ⟨"k2", "m", ""⟩]).getEnvironment
        (Credential.mobileKey "m") ≠ some ⟨0, "a", ⟨"k1", "m", ""⟩⟩
    ∧ (RelayCore.run [Op.add "a" ⟨"k1", "m", ""⟩, Op.add "b" ⟨"k2", "m", ""⟩]).getEnvironment
        (Credential.mobileKey "m") = some ⟨1, "b", ⟨"k2", "m", ""⟩⟩ := by
  refine ⟨rfl, rfl, ⟨rfl, by decide⟩, by decide, rfl⟩

/-- C1 (amended): in every state reached by a trace in which each
AddEnvironment uses a ServerKey, set MobileKey, and set EnvironmentID that
are not currently indexed, GetEnvironment of any credential belonging to a
currently indexed (live) environment returns exactly that environment's
EnvContext, and GetEnvironment of any credential belonging to no indexed
environment returns nil. -/
theorem c1_holds (ops : List Op)
    (hfresh : FreshRunFrom RelayCore.start ops) (c : Credential) :
    (∀ ctx ∈ mapValues (RelayCore.run ops).allEnvironments,
        ctx.hasCredential c → (RelayCore.run ops).getEnvironment c = some ctx)
    ∧ ((∀ ctx ∈ mapValues (RelayCore.run ops).allEnvironments,
        ¬ ctx.hasCredential c) → (RelayCore.run ops).getEnvironment c = none) := by
  have hInv := coreInv_run hfresh
  exact ⟨fun ctx hctx hc => getEnvironment_of_hasCredential hInv hctx hc,
    fun h => getEnvironment_none_of_no_owner hInv h⟩

/-- Witness for the amended C1 at a concrete fresh trace: add two
environments with distinct credentials, remove the first; the survivor is
reachable through its mobile key and the removed ServerKey resolves to
nothing. -/
theorem c1_theorem_witness :
    (RelayCore.run [Op.add "a" ⟨"k1", "m1", "e1"⟩, Op.add "b" ⟨"k2", "m2", "e2"⟩,
        Op.remove "k1"]).getEnvironment (Credential.mobileKey "m2")
      = some ⟨1, "b", ⟨"k2", "m2", "e2"⟩⟩
    ∧ (RelayCore.run [Op.add "a" ⟨"k1", "m1", "e1"⟩, Op.add "b" ⟨"k2", "m2", "e2"⟩,
        Op.remove "k1"]).getEnvironment (Credential.sdkKey "k1") = none := by
  refine ⟨?_, ?_⟩
  · exact (c1_holds
      [Op.add "a" ⟨"k1", "m1", "e1"⟩, Op.add "b" ⟨"k2", "m2", "e2"⟩, Op.remove "k1"]
      (by decide) (Credential.mobileKey "m2")).1
      ⟨1, "b", ⟨"k2", "m2", "e2"⟩⟩ (by decide) (by decide)
  · exact (c1_holds
      [Op.add "a" ⟨"k1", "m1", "e1"⟩, Op.add "b" ⟨"k2", "m2", "e2"⟩, Op.remove "k1"]
      (by decide) (Credential.sdkKey "k1")).2 (by decide)

/-- C2 (counterexample): the claim fails as stated.  With environment "a"
live under ServerKey "k", AddEnvironment of environment "b" with the same
ServerKey "k" is not rejected with a DuplicateCredential error: it
succeeds (returns the new context), and it replaces the existing index
entry, which beforehand mapped "k" to environment "a"'s context. -/
theorem c2_counterexample :
    ((RelayCore.run [Op.add "a" ⟨"k", "", ""⟩]).addEnvironment "b" ⟨"k", "", ""⟩).1
      = AddResult.ok ⟨1, "b", ⟨"k", "", ""⟩⟩
    ∧ (RelayCore.run [Op.add "a" ⟨"k", "", ""⟩]).getEnvironment (Credential.sdkKey "k")
      = some ⟨0, "a", ⟨"k", "", ""⟩⟩
    ∧ ((RelayCore.run [Op.add "a" ⟨"k", "", ""⟩]).addEnvironment "b" ⟨"k", "", ""⟩).2.getEnvironment
        (Credential.sdkKey "k") = some ⟨1, "b", ⟨"k", "", ""⟩⟩ := by
  exact ⟨rfl, rfl, rfl⟩

/-- C2 (amended): AddEnvironment performs no duplicate check.  On a core
that is not closed, adding an EnvConfig whose ServerKey is already indexed
succeeds and overwrites the index entry with the newly constructed
EnvContext; the index being a map, it still holds at most one entry — and
hence at most one EnvContext — per ServerKey in every reachable state. -/
theorem c2_holds (ops : List Op) (envName : String) (cfg : EnvConfig)
    (hopen : (RelayCore.run ops).closed = false) :
    ((RelayCore.run ops).addEnvironment envName cfg).1
      = AddResult.ok ⟨(RelayCore.run ops).nextId, envName, cfg⟩
    ∧ ((RelayCore.run ops).addEnvironment envName cfg).2.getEnvironment
        (Credential.sdkKey cfg.sdkKey)
      = some ⟨(RelayCore.run ops).nextId, envName, cfg⟩
    ∧ (mapKeys ((RelayCore.run ops).addEnvironment envName cfg).2.allEnvironments).Nodup := by
  refine ⟨?_, ?_, ?_⟩
  · simp [RelayCore.addEnvironment, hopen]
  · show mapLookup _ _ = _
    simp only [RelayCore.addEnvironment, hopen, Bool.false_eq_true, if_false]
    exact mapLookup_mapInsert_self _ _ _
  · simp only [RelayCore.addEnvironment, hopen, Bool.false_eq_true, if_false]
    exact keys_nodup_mapInsert (sdkKeys_nodup_run ops)

/-- Witness for the amended C2: adding "b" over the live ServerKey "k" of
"a" succeeds, the index maps "k" to the new context, and the SDK-key index
keys are duplicate-free. -/
theorem c2_theorem_witness :
    ((RelayCore.run [Op.add "a" ⟨"k", "", ""⟩]).addEnvironment "b" ⟨"k", "", ""⟩).1
      = AddResult.ok ⟨1, "b", ⟨"k", "", ""⟩⟩
    ∧ ((RelayCore.run [Op.add "a" ⟨"k", "", ""⟩]).addEnvironment "b" ⟨"k", "", ""⟩).2.getEnvironment
        (Credential.sdkKey "k") = some ⟨1, "b", ⟨"k", "", ""⟩⟩
    ∧ (mapKeys ((RelayCore.run [Op.add "a" ⟨"k", "", ""⟩]).addEnvironment "b"
        ⟨"k", "", ""⟩).2.allEnvironments).Nodup := by
  exact c2_holds [Op.add "a" ⟨"k", "", ""⟩] "b" ⟨"k", "", ""⟩ (by decide)

/-- C3 (confirmed): in any reachable state, if GetEnvironment finds an
environment under ServerKey k, then RemoveEnvironment(k) returns true,
afterwards GetEnvironment of each of that environment's credentials
(server key, mobile key, environment ID) returns nil, and Close was called
on exactly that EnvContext; if no environment is indexed under k,
RemoveEnvironment(k) returns false and the state is unchanged. -/
theorem c3_holds (ops : List Op) (k : String) :
    (∀ ctx, (RelayCore.run ops).getEnvironment (Credential.sdkKey k) = some ctx →
      ((RelayCore.run ops).removeEnvironment k).1 = true
      ∧ ((RelayCore.run ops).removeEnvironment k).2.getEnvironment
          (Credential.sdkKey ctx.conf.sdkKey) = none
      ∧ ((RelayCore.run ops).removeEnvironment k).2.getEnvironment
          (Credential.mobileKey ctx.conf.mobileKey) = none
      ∧ ((RelayCore.run ops).removeEnvironment k).2.getEnvironment
          (Credential.environmentID ctx.conf.envID) = none
      ∧ ((RelayCore.run ops).removeEnvironment k).2.closedEnvs
          = (RelayCore.run ops).closedEnvs ++ [ctx])
    ∧ ((RelayCore.run ops).getEnvironment (Credential.sdkKey k) = none →
      ((RelayCore.run ops).removeEnvironment k).1 = false
      ∧ ((RelayCore.run ops).removeEnvironment k).2 = RelayCore.run ops) := by
  constructor
  · intro ctx hlook
    replace hlook : mapLookup (RelayCore.run ops).allEnvironments k = some ctx := hlook
    have hkey : ctx.conf.sdkKey = k :=
      sdkKeysMatch_run ops (k, ctx) (mapLookup_mem hlook)
    refine ⟨?_, ?_, ?_, ?_, ?_⟩
    · simp [RelayCore.removeEnvironment, hlook]
    · show mapLookup ((RelayCore.run ops).removeEnvironment k).2.allEnvironments
          ctx.conf.sdkKey = none
      simp only [RelayCore.removeEnvironment, hlook]
      rw [hkey]
      exact mapLookup_mapErase_self _ _
    · show mapLookup ((RelayCore.run ops).removeEnvironment k).2.envsByMobileKey
          ctx.conf.mobileKey = none
      simp only [RelayCore.removeEnvironment, hlook]
      exact mapLookup_mapErase_self _ _
    · show mapLookup ((RelayCore.run ops).removeEnvironment k).2.envsByEnvID
          ctx.conf.envID = none
      simp only [RelayCore.removeEnvironment, hlook]
      exact mapLookup_mapErase_self _ _
    · simp [RelayCore.removeEnvironment, hlook]
  · intro hlook
    replace hlook : mapLookup (RelayCore.run ops).allEnvironments k = none := hlook
    constructor
    · simp [RelayCore.removeEnvironment, hlook]
    · simp [RelayCore.removeEnvironment, hlook]

/-- Witness for C3 at a concrete state: one environment under "k1" with
mobile key "m1" and environment ID "e1"; removing "k1" returns true, all
three credentials then resolve to nothing, its context got closed, and
removing the unknown key "zz" returns false and changes nothing. -/
theorem c3_theorem_witness :
    ((RelayCore.run [Op.add "a" ⟨"k1", "m1", "e1"⟩]).removeEnvironment "k1").1 = true
    ∧ ((RelayCore.run [Op.add "a" ⟨"k1", "m1", "e1"⟩]).removeEnvironment "k1").2.getEnvironment
        (Credential.sdkKey "k1") = none
    ∧ ((RelayCore.run [Op.add "a" ⟨"k1", "m1", "e1"⟩]).removeEnvironment "k1").2.getEnvironment
        (Credential.mobileKey "m1") = none
    ∧ ((RelayCore.run [Op.add "a" ⟨"k1", "m1", "e1"⟩]).removeEnvironment "k1").2.getEnvironment
        (Credential.environmentID "e1") = none
    ∧ ((RelayCore.run [Op.add "a" ⟨"k1", "m1", "e1"⟩]).removeEnvironment "k1").2.closedEnvs
        = [⟨0, "a", ⟨"k1", "m1", "e1"⟩⟩]
    ∧ ((RelayCore.run [Op.add "a" ⟨"k1", "m1", "e1"⟩]).removeEnvironment "zz").1 = false
    ∧ ((RelayCore.run [Op.add "a" ⟨"k1", "m1", "e1"⟩]).removeEnvironment "zz").2
        = RelayCore.run [Op.add "a" ⟨"k1", "m1", "e1"⟩] := by
  have h1 := (c3_holds [Op.add "a" ⟨"k1", "m1", "e1"⟩] "k1").1
    ⟨0, "a", ⟨"k1", "m1", "e1"⟩⟩ (by decide)
  have h2 := (c3_holds [Op.add "a" ⟨"k1", "m1", "e1"⟩] "zz").2 (by decide)
  exact ⟨h1.1, h1.2.1, h1.2.2.1, h1.2.2.2.1, h1.2.2.2.2, h2.1, h2.2⟩

/-- C4 (confirmed): after any trace containing a Close, the core is
closed, and AddEnvironment returns the errAlreadyClosed error and returns
the state unchanged — no context is constructed and no index entry is
added, whatever happened before or after the Close. -/
theorem c4_holds (ops1 ops2 : List Op) (envName : String) (cfg : EnvConfig) :
    (RelayCore.run (ops1 ++ Op.close :: ops2)).addEnvironment envName cfg
      = (AddResult.errAlreadyClosed, RelayCore.run (ops1 ++ Op.close :: ops2)) := by
  have hclosed : (RelayCore.run (ops1 ++ Op.close :: ops2)).closed = true := by
    rw [RelayCore.run, runFrom_append]
    show (RelayCore.runFrom
      ((RelayCore.runFrom RelayCore.start ops1).step Op.close) ops2).closed = true
    exact closed_runFrom (close_closed _) ops2
  simp [RelayCore.addEnvironment, hclosed]

/-- An already-closed core is a fixed point of Close. -/
theorem close_of_closed {r : RelayCore} (h : r.closed = true) : r.close = r := by
  simp [RelayCore.close, h]

/-- C5 (confirmed): on a core that is not yet closed, Close sets the
closed flag, empties the three credential indexes, closes the metrics
manager once, calls Close once on every indexed EnvContext, and closes the
four stream providers once; and Close is idempotent — a second Close
returns the state untouched, so no resource is released twice. -/
theorem c5_holds (r : RelayCore) (hopen : r.closed = false) :
    r.close.closed = true
    ∧ r.close.allEnvironments = []
    ∧ r.close.envsByMobileKey = []
    ∧ r.close.envsByEnvID = []
    ∧ r.close.metricsCloseCount = r.metricsCloseCount + 1
    ∧ r.close.closedEnvs = r.closedEnvs ++ mapValues r.allEnvironments
    ∧ r.close.streamProviderCloseCount = r.streamProviderCloseCount + 4
    ∧ r.close.close = r.close := by
  refine ⟨close_closed r, ?_, ?_, ?_, ?_, ?_, ?_, close_of_closed (close_closed r)⟩
    <;> simp [RelayCore.close, hopen]

/-- Witness for C5 on a concrete open core holding one environment. -/
theorem c5_theorem_witness :
    (RelayCore.run [Op.add "a" ⟨"k1", "m1", "e1"⟩]).close.closed = true
    ∧ (RelayCore.run [Op.add "a" ⟨"k1", "m1", "e1"⟩]).close.allEnvironments = []
    ∧ (RelayCore.run [Op.add "a" ⟨"k1", "m1", "e1"⟩]).close.envsByMobileKey = []
    ∧ (RelayCore.run [Op.add "a" ⟨"k1", "m1", "e1"⟩]).close.envsByEnvID = []
    ∧ (RelayCore.run [Op.add "a" ⟨"k1", "m1", "e1"⟩]).close.metricsCloseCount
        = (RelayCore.run [Op.add "a" ⟨"k1", "m1", "e1"⟩]).metricsCloseCount + 1
    ∧ (RelayCore.run [Op.add "a" ⟨"k1", "m1", "e1"⟩]).close.closedEnvs
        = (RelayCore.run [Op.add "a" ⟨"k1", "m1", "e1"⟩]).closedEnvs
          ++ mapValues (RelayCore.run [Op.add "a" ⟨"k1", "m1", "e1"⟩]).allEnvironments
    ∧ (RelayCore.run [Op.add "a" ⟨"k1", "m1", "e1"⟩]).close.streamProviderCloseCount
        = (RelayCore.run [Op.add "a" ⟨"k1", "m1", "e1"⟩]).streamProviderCloseCount + 4
    ∧ (RelayCore.run [Op.add "a" ⟨"k1", "m1", "e1"⟩]).close.close
        = (RelayCore.run [Op.add "a" ⟨"k1", "m1", "e1"⟩]).close := by
  exact c5_holds (RelayCore.run [Op.add "a" ⟨"k1", "m1", "e1"⟩]) (by decide)

/-- C6 (confirmed): when all of the environments counted at the call have
reported, WaitForAllClients returns the some-environment-failed error
exactly when some report carried a non-nil init error and nil (ok)
otherwise; when fewer reports than environments have arrived and the
positive timeout fires, it returns the initialization-timeout error. -/
theorem c6_holds (numEnvironments : Nat) (reports : List Bool)
    (timeoutElapses : Bool) :
    (reports.length = numEnvironments →
      ((true ∈ reports →
          waitForAllClients numEnvironments reports timeoutElapses
            = WaitResult.someEnvFailed)
       ∧ (true ∉ reports →
          waitForAllClients numEnvironments reports timeoutElapses
            = WaitResult.ok)))
    ∧ (reports.length < numEnvironments →
        waitForAllClients numEnvironments reports true = WaitResult.timedOut) := by
  constructor
  · intro h
    have hle : numEnvironments ≤ reports.length := le_of_eq h.symm
    have htake : reports.take numEnvironments = reports := by
      rw [← h]
      exact List.take_length reports
    constructor
    · intro hmem
      have hany : (reports.take numEnvironments).any (fun b => b) = true := by
        rw [htake]
        exact List.any_eq_true.2 ⟨true, hmem, rfl⟩
      simp [waitForAllClients, hle, hany]
    · intro hmem
      have hany : (reports.take numEnvironments).any (fun b => b) = false := by
        rw [htake]
        rcases hc : reports.any (fun b => b) with _ | _
        · rfl
        · rcases List.any_eq_true.1 hc with ⟨b, hb, hbt⟩
          have hbt' : b = true := by simpa using hbt
          cases hbt'
          exact absurd hb hmem
      simp [waitForAllClients, hle, hany]
  · intro hlt
    have hnle : ¬ numEnvironments ≤ reports.length := not_le_of_lt hlt
    simp [waitForAllClients, hnle]

/-- Witness for C6: with two environments, reports [false, true] yield the
failure result, [false, false] yield ok, and a single report against two
environments with the timer firing yields the timeout error. -/
theorem c6_theorem_witness :
    waitForAllClients 2 [false, true] false = WaitResult.someEnvFailed
    ∧ waitForAllClients 2 [false, false] false = WaitResult.ok
    ∧ waitForAllClients 2 [false] true = WaitResult.timedOut := by
  exact ⟨((c6_holds 2 [false, true] false).1 (by decide)).1 (by decide),
    ((c6_holds 2 [false, false] false).1 (by decide)).2 (by decide),
    (c6_holds 2 [false] true).2 (by decide)⟩

/-- C7 (confirmed): the synchronous response of dispatchEvents is a
function of the body read alone — the schema header and the parse outcome
of the asynchronous worker cannot change it; a read failure yields 400
with the diagnostic JSON envelope, an empty body yields 400 with the
"body may not be empty" envelope, and every non-empty readable body yields
202 with no response body. -/
theorem c7_holds (schemaHeader altHeader : String)
    (parse altParse : String → Option (List String)) (body : BodyRead) :
    (dispatchEvents body schemaHeader parse).1
        = (dispatchEvents body altHeader altParse).1
    ∧ (dispatchEvents BodyRead.failure schemaHeader parse).1
        = ⟨400, errorJsonMsg "unable to read request body"⟩
    ∧ (dispatchEvents (BodyRead.success "") schemaHeader parse).1
        = ⟨400, errorJsonMsg "body may not be empty"⟩
    ∧ (∀ b : String, b ≠ "" →
        (dispatchEvents (BodyRead.success b) schemaHeader parse).1 = ⟨202, ""⟩) := by
  refine ⟨?_, rfl, rfl, ?_⟩
  · cases body with
    | failure => rfl
    | success b =>
        by_cases hb : b.length = 0 <;> simp [dispatchEvents, hb]
  · intro b hb
    simp [dispatchEvents, string_length_ne_zero hb]

/-- Witness for C7 at concrete requests: an unreadable body, an empty
body, and the non-empty body "[]" even when the async parse fails. -/
theorem c7_theorem_witness :
    (dispatchEvents BodyRead.failure "" (fun _ => none)).1
        = ⟨400, errorJsonMsg "unable to read request body"⟩
    ∧ (dispatchEvents (BodyRead.success "") "" (fun _ => none)).1
        = ⟨400, errorJsonMsg "body may not be empty"⟩
    ∧ (dispatchEvents (BodyRead.success "[]") "" (fun _ => none)).1 = ⟨202, ""⟩ := by
  exact ⟨(c7_holds "" "" (fun _ => none) (fun _ => none) BodyRead.failure).2.1,
    (c7_holds "" "" (fun _ => none) (fun _ => none) BodyRead.failure).2.2.1,
    (c7_holds "" "" (fun _ => none) (fun _ => none) BodyRead.failure).2.2.2
      "[]" (by decide)⟩

/-- C8 (counterexample): the claim fails as stated.  The header value
"9999999999999999999999" is not parseable — strconv.Atoi reports an error
for it — so by the claim it must be treated as version 1 and summarized;
but Atoi's discarded-error return value is the range-clamped MaxInt64,
which is ≥ 3, so the records are routed to the verbatim relay instead. -/
theorem c8_counterexample :
    (strconvAtoi "9999999999999999999999").2 = false
    ∧ dispatchEventsAsync (some ["rec"]) "9999999999999999999999"
        = AsyncAction.verbatim ["rec"]
    ∧ dispatchEventsAsync (some ["rec"]) "9999999999999999999999"
        ≠ AsyncAction.summarize ["rec"] 1 := by
  exact ⟨by decide, by decide, by decide⟩

/-- C8 (amended): routing is a function of the value of strconv.Atoi on
the schema header with its error discarded.  A value of 0 — in particular
an absent or syntactically malformed header — is treated as version 1 and
summarized; a value ≥ 3 routes the parsed records unmodified to the
verbatim relay; any other non-zero value below 3 is summarized with that
value.  A numeric header outside the int64 range is clamped to the extreme
int64 value rather than defaulting to 1, so a large positive overflowing
header is routed verbatim.  A parse failure of the body stops the worker. -/
theorem c8_holds (evts : List String) (hdr : String) :
    ((strconvAtoi hdr).1 = 0 →
        dispatchEventsAsync (some evts) hdr = AsyncAction.summarize evts 1)
    ∧ (3 ≤ (strconvAtoi hdr).1 →
        dispatchEventsAsync (some evts) hdr = AsyncAction.verbatim evts)
    ∧ ((strconvAtoi hdr).1 ≠ 0 → (strconvAtoi hdr).1 < 3 →
        dispatchEventsAsync (some evts) hdr
          = AsyncAction.summarize evts ((strconvAtoi hdr).1))
    ∧ dispatchEventsAsync none hdr = AsyncAction.parseFailed := by
  refine ⟨?_, ?_, ?_, rfl⟩
  · intro h0
    norm_num [dispatchEventsAsync, h0, SummaryEventsSchemaVersion]
  · intro h3
    have hne : (strconvAtoi hdr).1 ≠ 0 := by
      intro h
      rw [h] at h3
      norm_num at h3
    simp [dispatchEventsAsync, hne, SummaryEventsSchemaVersion, h3]
  · intro hne hlt
    simp [dispatchEventsAsync, hne, SummaryEventsSchemaVersion, not_le_of_lt hlt]

/-- Witness for the amended C8: an absent header summarizes at version 1,
header "3" routes verbatim, header "2" summarizes at version 2. -/
theorem c8_theorem_witness :
    dispatchEventsAsync (some ["rec"]) "" = AsyncAction.summarize ["rec"] 1
    ∧ dispatchEventsAsync (some ["rec"]) "3" = AsyncAction.verbatim ["rec"]
    ∧ dispatchEventsAsync (some ["rec"]) "2" = AsyncAction.summarize ["rec"] 2 := by
  refine ⟨(c8_holds ["rec"] "").1 (by decide),
    (c8_holds ["rec"] "3").2.1 (by decide), ?_⟩
  have h := (c8_holds ["rec"] "2").2.2.1 (by decide) (by decide)
  have h2 : (strconvAtoi "2").1 = 2 := by decide
  rw [h2] at h
  exact h

/-- C9 (counterexample): the claim fails as stated, because enqueue
consults the SendEvents flag before any sampling.  With SendEvents false
and SamplingInterval 0 (≤ 0) the batch is not forwarded although the claim
promises every batch is; and with SendEvents false, SamplingInterval 5 and
a PRNG whose next draw is 0 the batch is again not forwarded (and no draw
is consumed) although the claim promises publication iff the draw is 0. -/
theorem c9_counterexample :
    eventVerbatimRelay.enqueue ⟨"", false, 0, 0, 1000, false⟩ (fun _ => 0)
        ⟨[], 0⟩ ["rec9"] = ⟨[], 0⟩
    ∧ eventVerbatimRelay.enqueue ⟨"", false, 0, 5, 1000, false⟩ (fun _ => 0)
        ⟨[], 0⟩ ["rec9"] = ⟨[], 0⟩ := by
  exact ⟨rfl, rfl⟩

/-- C9 (amended): provided SendEvents is true: when SamplingInterval N is
positive, one PRNG draw Int31n(N) is consumed per batch and the batch is
forwarded to the publisher exactly when that draw is 0; when N ≤ 0 every
batch is forwarded and the PRNG is not consulted.  (The PRNG is embedded
as the draw oracle; that the draws are uniform with success probability
1/N, and that the generator is seeded from the wall clock, are properties
of math/rand outside the embedding.) -/
theorem c9_holds (config : Config) (draw : Nat → Int)
    (st : VerbatimRelayState) (evts : List String)
    (hsend : config.SendEvents = true) :
    (0 < config.SamplingInterval →
      ((draw st.rngIdx = 0 →
          eventVerbatimRelay.enqueue config draw st evts
            = ⟨st.published ++ [evts], st.rngIdx + 1⟩)
       ∧ (draw st.rngIdx ≠ 0 →
          eventVerbatimRelay.enqueue config draw st evts
            = ⟨st.published, st.rngIdx + 1⟩)))
    ∧ (config.SamplingInterval ≤ 0 →
        eventVerbatimRelay.enqueue config draw st evts
          = ⟨st.published ++ [evts], st.rngIdx⟩) := by
  constructor
  · intro hpos
    constructor
    · intro hdraw
      simp [eventVerbatimRelay.enqueue, hsend, hpos, hdraw]
    · intro hdraw
      simp [eventVerbatimRelay.enqueue, hsend, hpos, hdraw]
  · intro hle
    simp [eventVerbatimRelay.enqueue, hsend, not_lt_of_le hle]

/-- Witness for the amended C9 with SendEvents enabled: SamplingInterval 5
publishes exactly when the draw is 0, and SamplingInterval 0 always
publishes. -/
theorem c9_theorem_witness :
    eventVerbatimRelay.enqueue ⟨"", true, 0, 5, 1000, false⟩ (fun _ => 0)
        ⟨[], 0⟩ ["rec"] = ⟨[["rec"]], 1⟩
    ∧ eventVerbatimRelay.enqueue ⟨"", true, 0, 5, 1000, false⟩ (fun _ => 3)
        ⟨[], 0⟩ ["rec"] = ⟨[], 1⟩
    ∧ eventVerbatimRelay.enqueue ⟨"", true, 0, 0, 1000, false⟩ (fun _ => 3)
        ⟨[], 0⟩ ["rec"] = ⟨[["rec"]], 0⟩ := by
  exact ⟨((c9_holds ⟨"", true, 0, 5, 1000, false⟩ (fun _ => 0) ⟨[], 0⟩ ["rec"]
      rfl).1 (by decide)).1 rfl,
    ((c9_holds ⟨"", true, 0, 5, 1000, false⟩ (fun _ => 3) ⟨[], 0⟩ ["rec"]
      rfl).1 (by decide)).2 (by decide),
    (c9_holds ⟨"", true, 0, 0, 1000, false⟩ (fun _ => 3) ⟨[], 0⟩ ["rec"]
      rfl).2 (by decide)⟩

/-- C10 (confirmed): with SendEvents false, enqueue returns with the state
untouched — nothing reaches PublishRaw and the PRNG is not consulted —
whatever the sampling configuration, the PRNG draws, the pending state,
or the batch. -/
theorem c10_holds (config : Config) (draw : Nat → Int)
    (st : VerbatimRelayState) (evts : List String)
    (hoff : config.SendEvents = false) :
    eventVerbatimRelay.enqueue config draw st evts = st := by
  simp [eventVerbatimRelay.enqueue, hoff]

/-- Witness for C10: SendEvents false, SamplingInterval 3 and a draw of 0
(which would publish were the gate absent) leave the state untouched. -/
theorem c10_theorem_witness :
    eventVerbatimRelay.enqueue ⟨"", false, 0, 3, 1000, false⟩ (fun _ => 0)
        ⟨[["x"]], 7⟩ ["y"] = ⟨[["x"]], 7⟩ :=
  c10_holds ⟨"", false, 0, 3, 1000, false⟩ (fun _ => 0) ⟨[["x"]], 7⟩ ["y"] rfl
